import Mathlib

/-!
Verification of the realm-core column storage layer (shallow embedding).

The definitions below are translated from the C++ sources:
  * `src/realm/spec.cpp`               (schema / subspec handling)
  * `src/realm/column_string.cpp`      (string column, leaf encodings, index order)
  * `src/realm/column_string_enum.cpp` (enum-coded string column)
  * `src/realm/column_table.cpp`       (sub-table accessor map)
  * the shared column template (`TColumn` in column.hpp)

Machine integers are modelled as `Nat`/`Int`; arena arrays (`Array`,
`ArrayString`, ...) are modelled as Lean lists holding the logical
content.  The search index, whose implementation (`index_string.cpp`)
is not part of the source set, is modelled from the specification
where a claim needs it; each such definition is marked
`Modelled from the spec:`.

The file is organised as: all definitions first, then all theorems.
-/

namespace RealmCore

/-! # Definitions -/

/-! ## Column types (realm/column_type.hpp)

The `ColumnType` enumeration with the enumerators the sources dispatch
on. -/

inductive ColumnType where
  | int
  | bool
  | string
  | stringEnum
  | binary
  | table
  | mixed
  | oldDateTime
  | timestamp
  | float
  | double
  | reserved4
  | link
  | linkList
  | backLink
deriving DecidableEq, Repr, Inhabited

/-- `_impl::TableFriend::is_link_type`: true for `Link` and `LinkList`
(`BackLink` is handled separately in `Spec::erase_column`). -/
def is_link_type (t : ColumnType) : Bool :=
  t = ColumnType.link ∨ t = ColumnType.linkList

/-! ## Spec (spec.cpp)

The sub-arrays of a `Spec` are modelled as lists.  `m_subspecs` holds
raw 64-bit slots (refs or tagged integers), modelled as `Int`. -/

structure Spec where
  m_types : List ColumnType
  m_names : List String
  m_attr : List Nat
  m_subspecs : List Int
  m_enumkeys : List Int
deriving DecidableEq, Repr

/-- `Spec::get_subspec_entries_for_col_type` (spec.cpp:360-369). -/
def get_subspec_entries_for_col_type (type : ColumnType) : Nat :=
  if type = ColumnType.table ∨ type = ColumnType.link ∨ type = ColumnType.linkList then
    1
  else if type = ColumnType.backLink then
    2
  else
    0

/-- `Spec::get_subspec_ndx_after` (spec.cpp:342-357): loop over
`i = 0 .. column_ndx-1`, skipping `skip_column_ndx`, summing the
per-type entry counts. -/
def get_subspec_ndx_after (s : Spec) (column_ndx skip_column_ndx : Nat) : Nat :=
  (List.range column_ndx).foldl
    (fun subspec_ndx i =>
      if i = skip_column_ndx then
        subspec_ndx
      else
        subspec_ndx + get_subspec_entries_for_col_type (s.m_types.getD i default))
    0

/-- `Spec::get_subspec_ndx` (spec.cpp:332-339). -/
def get_subspec_ndx (s : Spec) (column_ndx : Nat) : Nat :=
  get_subspec_ndx_after s column_ndx column_ndx

/-- `Spec::get_enumkeys_ndx` (spec.cpp:403-413): number of
`StringEnum` columns strictly before `column_ndx`. -/
def get_enumkeys_ndx (s : Spec) (column_ndx : Nat) : Nat :=
  (List.range column_ndx).foldl
    (fun enumkeys_ndx i =>
      if s.m_types.getD i default = ColumnType.stringEnum then
        enumkeys_ndx + 1
      else
        enumkeys_ndx)
    0

/-- Total number of subspec entries contributed by a list of column
types (using the entry counts of the source function). -/
def sum_subspec_entries (types : List ColumnType) : Nat :=
  (types.map get_subspec_entries_for_col_type).sum

/-- The per-type subspec entry count exactly as the specification
words it: "A Table column contributes one entry ... Link/LinkList
contribute one entry ... BackLink contributes two entries ... All
other column types contribute zero entries."  Stated separately from
`get_subspec_entries_for_col_type` so that the source function can be
compared against the specification. -/
def entries_per_type_spec : ColumnType → Nat
  | ColumnType.table => 1
  | ColumnType.link => 1
  | ColumnType.linkList => 1
  | ColumnType.backLink => 2
  | _ => 0

/-- `Spec::insert_column` (spec.cpp:209-275).  `new_subspec_ref`
models the ref of the empty nested spec the allocator returns for a
`Table` column.  The in-memory `m_subspec_ptrs` cache is not part of
the persistent arrays and is not modelled. -/
def insert_column (s : Spec) (column_ndx : Nat) (type : ColumnType)
    (name : String) (attr : Nat) (new_subspec_ref : Int) : Spec :=
  let s1 : Spec :=
    { s with
      m_names :=
        if type ≠ ColumnType.backLink then s.m_names.insertIdx column_ndx name
        else s.m_names,
      m_types := s.m_types.insertIdx column_ndx type,
      m_attr := s.m_attr.insertIdx column_ndx attr }
  if type = ColumnType.table then
    let subspec_ndx := get_subspec_ndx s1 column_ndx
    { s1 with m_subspecs := s1.m_subspecs.insertIdx subspec_ndx new_subspec_ref }
  else if is_link_type type then
    let subspec_ndx := get_subspec_ndx s1 column_ndx
    { s1 with m_subspecs := s1.m_subspecs.insertIdx subspec_ndx 0 }
  else if type = ColumnType.backLink then
    let subspec_ndx := get_subspec_ndx s1 column_ndx
    { s1 with m_subspecs := (s1.m_subspecs.insertIdx subspec_ndx 0).insertIdx subspec_ndx 1 }
  else
    s1

/-- `Spec::erase_column` (spec.cpp:277-329).  The subspec / enumkeys
bookkeeping runs first (on the still-unchanged `m_types`), then the
name, type and attribute entries are erased. -/
def erase_column (s : Spec) (column_ndx : Nat) : Spec :=
  let type := s.m_types.getD column_ndx default
  let s1 : Spec :=
    if type = ColumnType.table then
      let subspec_ndx := get_subspec_ndx s column_ndx
      { s with m_subspecs := s.m_subspecs.eraseIdx subspec_ndx }
    else if is_link_type type then
      let subspec_ndx := get_subspec_ndx s column_ndx
      { s with m_subspecs := s.m_subspecs.eraseIdx subspec_ndx }
    else if type = ColumnType.backLink then
      let subspec_ndx := get_subspec_ndx s column_ndx
      { s with m_subspecs := (s.m_subspecs.eraseIdx subspec_ndx).eraseIdx subspec_ndx }
    else if type = ColumnType.stringEnum then
      let keys_ndx := get_enumkeys_ndx s column_ndx
      { s with m_enumkeys := s.m_enumkeys.eraseIdx keys_ndx }
    else
      s
  { s1 with
    m_names :=
      if type ≠ ColumnType.backLink then s1.m_names.eraseIdx column_ndx
      else s1.m_names,
    m_types := s1.m_types.eraseIdx column_ndx,
    m_attr := s1.m_attr.eraseIdx column_ndx }

/-- Structural invariant `names.size + (#backlink columns) =
types.size = attrs.size` (spec §3). -/
def spec_size_invariant (s : Spec) : Prop :=
  s.m_names.length + s.m_types.countP (fun t => t = ColumnType.backLink) = s.m_types.length
  ∧ s.m_attr.length = s.m_types.length

/-- Structural invariant `subspecs.size = Σ entries_per_type(types[i])`
(spec §3). -/
def spec_subspec_invariant (s : Spec) : Prop :=
  s.m_subspecs.length = sum_subspec_entries s.m_types

instance (s : Spec) : Decidable (spec_size_invariant s) := by
  unfold spec_size_invariant; infer_instance

instance (s : Spec) : Decidable (spec_subspec_invariant s) := by
  unfold spec_subspec_invariant; infer_instance

/-- `Spec::set_opposite_link_table_ndx` (spec.cpp:449-460): the
group-level index of the opposite table is stored as the tagged
integer `(table_ndx << 1) + 1` in the subspecs slot of the column. -/
def set_opposite_link_table_ndx (s : Spec) (column_ndx table_ndx : Nat) : Spec :=
  let tagged_ndx : Int := Int.ofNat ((table_ndx <<< 1) + 1)
  let subspec_ndx := get_subspec_ndx s column_ndx
  { s with m_subspecs := s.m_subspecs.set subspec_ndx tagged_ndx }

/-- `Spec::get_opposite_link_table_ndx` (spec.cpp:430-446).  The
reader checks `REALM_ASSERT(tagged_value != 0)` and then returns
`tagged_value >> 1`; an assertion failure is modelled as `none`. -/
def get_opposite_link_table_ndx (s : Spec) (column_ndx : Nat) : Option Nat :=
  let subspec_ndx := get_subspec_ndx s column_ndx
  let tagged_value := s.m_subspecs.getD subspec_ndx 0
  if tagged_value = 0 then
    none
  else
    some (tagged_value.toNat >>> 1)

/-! ## String leaf encodings (column_string.cpp) -/

/-- `StringColumn::LeafType`: the three leaf encodings of a string
column, in upgrade order small → medium → big. -/
inductive LeafType where
  | small
  | medium
  | big
deriving DecidableEq, Repr, Inhabited

/-- `small_string_max_size` (column_string.cpp:38). -/
def small_string_max_size : Nat := 15

/-- `medium_string_max_size` (column_string.cpp:39). -/
def medium_string_max_size : Nat := 63

/-- `StringColumn::upgrade_root_leaf(value_size)`
(column_string.cpp:1200-1254), as a function from the current root
leaf encoding and the incoming value size to the resulting
encoding: a big leaf stays big; a medium leaf stays medium unless the
value exceeds 63 bytes; a small leaf stays small for values of at
most 15 bytes and is otherwise upgraded. -/
def upgrade_root_leaf (current : LeafType) (value_size : Nat) : LeafType :=
  match current with
  | LeafType.big => LeafType.big
  | LeafType.medium =>
      if value_size ≤ medium_string_max_size then LeafType.medium else LeafType.big
  | LeafType.small =>
      if value_size ≤ small_string_max_size then LeafType.small
      else if value_size ≤ medium_string_max_size then LeafType.medium
      else LeafType.big

/-- The leaf encoding on which `SetLeafElem::update`
(column_string.cpp:310-365) performs the write, given the leaf's
current encoding and the value size (the `copy_leaf` upgrade paths). -/
def set_leaf_elem_encoding (current : LeafType) (value_size : Nat) : LeafType :=
  match current with
  | LeafType.big => LeafType.big
  | LeafType.medium =>
      if value_size ≤ medium_string_max_size then LeafType.medium else LeafType.big
  | LeafType.small =>
      if value_size ≤ small_string_max_size then LeafType.small
      else if value_size ≤ medium_string_max_size then LeafType.medium
      else LeafType.big

/-- The leaf encoding on which `StringColumn::leaf_insert`
(column_string.cpp:1148-1197) performs the insertion. -/
def leaf_insert_encoding (current : LeafType) (value_size : Nat) : LeafType :=
  match current with
  | LeafType.big => LeafType.big
  | LeafType.medium =>
      if value_size ≤ medium_string_max_size then LeafType.medium else LeafType.big
  | LeafType.small =>
      if value_size ≤ small_string_max_size then LeafType.small
      else if value_size ≤ medium_string_max_size then LeafType.medium
      else LeafType.big

/-- `StringColumn::EraseLeafElem::erase_leaf_elem`
(column_string.cpp:414-470) dispatches on the current encoding and
erases in place; it never re-encodes the leaf. -/
def erase_leaf_elem_encoding (current : LeafType) : LeafType :=
  match current with
  | LeafType.small => LeafType.small
  | LeafType.medium => LeafType.medium
  | LeafType.big => LeafType.big

/-- The minimal encoding for a value of length `L` exactly as the
specification words it: small iff `L ≤ 15`, medium iff `15 < L ≤ 63`,
big iff `L > 63`. -/
def minimal_string_encoding (value_size : Nat) : LeafType :=
  if value_size ≤ 15 then LeafType.small
  else if value_size ≤ 63 then LeafType.medium
  else LeafType.big

/-- Upgrade order of the three encodings. -/
def LeafType.rank : LeafType → Nat
  | LeafType.small => 0
  | LeafType.medium => 1
  | LeafType.big => 2

/-- The larger of two encodings in upgrade order. -/
def leaf_max (a b : LeafType) : LeafType :=
  if LeafType.rank a ≤ LeafType.rank b then b else a

/-! ## Mutation event traces (search-index ordering)

For the temporal ordering claims, each mutating column operation is
modelled by the sequence of index / tree sub-operations it performs,
in source order.  `keys_add` is the append to an enum column's key
list performed by `get_key_ndx_or_add`. -/

inductive MutEvent where
  | idx_set
  | idx_erase
  | idx_update_ref
  | idx_insert
  | idx_clear
  | tree_set
  | tree_erase
  | tree_insert
  | tree_clear
  | keys_add
deriving DecidableEq, Repr

/-- Which events are search-index updates. -/
def MutEvent.is_index_event : MutEvent → Bool
  | MutEvent.idx_set | MutEvent.idx_erase | MutEvent.idx_update_ref
  | MutEvent.idx_insert | MutEvent.idx_clear => true
  | _ => false

/-- A trace in which every search-index update precedes every other
(tree) mutation: after the leading index events no index event
occurs. -/
def index_updates_first (events : List MutEvent) : Bool :=
  (events.dropWhile MutEvent.is_index_event).all (fun e => ¬ e.is_index_event)

/-- `StringColumn::set` (column_string.cpp:370-411): index set (when
an index is present), then the tree write. -/
def StringColumn_set_events (has_index : Bool) : List MutEvent :=
  (if has_index then [MutEvent.idx_set] else []) ++ [MutEvent.tree_set]

/-- `StringColumn::do_erase` (column_string.cpp:514-553). -/
def StringColumn_do_erase_events (has_index : Bool) : List MutEvent :=
  (if has_index then [MutEvent.idx_erase] else []) ++ [MutEvent.tree_erase]

/-- `StringColumn::do_move_last_over` (column_string.cpp:556-622):
index erase at `row_ndx` (with `is_last = true`), index `update_ref`
when `row_ndx ≠ last_row_ndx`, then the tree write at `row_ndx` and
the tree erase of the last row. -/
def StringColumn_do_move_last_over_events (has_index row_eq_last : Bool) : List MutEvent :=
  (if has_index then
     [MutEvent.idx_erase] ++ (if row_eq_last then [] else [MutEvent.idx_update_ref])
   else []) ++ [MutEvent.tree_set, MutEvent.tree_erase]

/-- `StringColumn::do_clear` (column_string.cpp:658-697): the root
leaf (or tree) is cleared first; `m_search_index->clear()` runs last. -/
def StringColumn_do_clear_events (has_index : Bool) : List MutEvent :=
  [MutEvent.tree_clear] ++ (if has_index then [MutEvent.idx_clear] else [])

/-- `StringEnumColumn::set` (column_string_enum.cpp:83-101): index
set, then `get_key_ndx_or_add` (which may append a key), then the
write into the integer tree. -/
def StringEnumColumn_set_events (has_index adds_key : Bool) : List MutEvent :=
  (if has_index then [MutEvent.idx_set] else [])
    ++ (if adds_key then [MutEvent.keys_add] else []) ++ [MutEvent.tree_set]

/-- `StringEnumColumn::do_erase` (column_string_enum.cpp:136-148). -/
def StringEnumColumn_do_erase_events (has_index : Bool) : List MutEvent :=
  (if has_index then [MutEvent.idx_erase] else []) ++ [MutEvent.tree_erase]

/-- `StringEnumColumn::do_move_last_over`
(column_string_enum.cpp:151-169). -/
def StringEnumColumn_do_move_last_over_events (has_index row_eq_last : Bool) : List MutEvent :=
  (if has_index then
     [MutEvent.idx_erase] ++ (if row_eq_last then [] else [MutEvent.idx_update_ref])
   else []) ++ [MutEvent.tree_set, MutEvent.tree_erase]

/-- `StringEnumColumn::do_clear` (column_string_enum.cpp:203-210):
`clear_without_updating_index()` first, then the index clear. -/
def StringEnumColumn_do_clear_events (has_index : Bool) : List MutEvent :=
  [MutEvent.tree_clear] ++ (if has_index then [MutEvent.idx_clear] else [])

/-- `TColumn::set` (column.hpp): index set, then `m_tree.set`. -/
def TColumn_set_events (has_index : Bool) : List MutEvent :=
  (if has_index then [MutEvent.idx_set] else []) ++ [MutEvent.tree_set]

/-- `TColumn::erase` (column.hpp). -/
def TColumn_erase_events (has_index : Bool) : List MutEvent :=
  (if has_index then [MutEvent.idx_erase] else []) ++ [MutEvent.tree_erase]

/-- `TColumn::move_last_over` (column.hpp): index erase, index
`update_ref` when moving, then `m_tree.move_last_over`. -/
def TColumn_move_last_over_events (has_index row_eq_last : Bool) : List MutEvent :=
  (if has_index then
     [MutEvent.idx_erase] ++ (if row_eq_last then [] else [MutEvent.idx_update_ref])
   else []) ++ [MutEvent.tree_set, MutEvent.tree_erase]

/-- `TColumn::clear` (column.hpp): here the index clear does run
first, then `clear_without_updating_index()`. -/
def TColumn_clear_events (has_index : Bool) : List MutEvent :=
  (if has_index then [MutEvent.idx_clear] else []) ++ [MutEvent.tree_clear]

/-! ## Unique-constraint rejection (StringColumn set / do_insert)

State of a string column: the tree content, plus the content mirrored
by the search index when one is present. -/

inductive LogicErr where
  | unique_constraint
deriving DecidableEq, Repr

structure StringColumnState where
  tree : List String
  index : Option (List String)
deriving DecidableEq, Repr

/-- Modelled from the spec: `StringIndex::set` with a unique
constraint (index_string.cpp is not in the source set).  Per spec §7,
an indexed-column set that "would duplicate" is rejected by the index
before anything else; otherwise the index now reflects the new value
at `ndx`. -/
def index_set_unique (idx : List String) (ndx : Nat) (value : String) :
    Except LogicErr (List String) :=
  if idx.contains value then Except.error LogicErr.unique_constraint
  else Except.ok (idx.set ndx value)

/-- Modelled from the spec: `StringIndex::insert` with a unique
constraint, inserting at `row_ndx` (`none` = append). -/
def index_insert_unique (idx : List String) (row_ndx : Option Nat) (value : String) :
    Except LogicErr (List String) :=
  if idx.contains value then Except.error LogicErr.unique_constraint
  else
    match row_ndx with
    | none => Except.ok (idx ++ [value])
    | some n => Except.ok (idx.insertIdx n value)

/-- `StringColumn::set` (column_string.cpp:370-411): the search index
is updated *before* the tree ("We must modify the search index before
modifying the column, because we need to be able to abort the
operation if the modification of the search index fails due to a
unique constraint violation").  On rejection the state is returned
unchanged together with the error. -/
def StringColumn_set (s : StringColumnState) (ndx : Nat) (value : String) :
    StringColumnState × Option LogicErr :=
  match s.index with
  | none => ({ s with tree := s.tree.set ndx value }, none)
  | some idx =>
    match index_set_unique idx ndx value with
    | Except.error e => (s, some e)
    | Except.ok idx2 => ({ tree := s.tree.set ndx value, index := some idx2 }, none)

/-- `StringColumn::do_insert` (column_string.cpp:1074-1083):
`bptree_insert` mutates the tree *first*; the index insert runs
afterwards.  If the index rejects, the tree mutation has already
happened and is kept (the exception propagates). -/
def StringColumn_do_insert (s : StringColumnState) (row_ndx : Option Nat) (value : String) :
    StringColumnState × Option LogicErr :=
  let tree2 :=
    match row_ndx with
    | none => s.tree ++ [value]
    | some n => s.tree.insertIdx n value
  let s1 : StringColumnState := { s with tree := tree2 }
  match s1.index with
  | none => (s1, none)
  | some idx =>
    match index_insert_unique idx row_ndx value with
    | Except.error e => (s1, some e)
    | Except.ok idx2 => ({ s1 with index := some idx2 }, none)

/-! ## move_last_over (C6) -/

/-- `StringColumn::do_move_last_over` (column_string.cpp:556-622),
tree effect: read the value at `last_row_ndx`, write it at `row_ndx`,
then erase the last row. -/
def do_move_last_over (l : List String) (row_ndx last_row_ndx : Nat) : List String :=
  let value := l.getD last_row_ndx ""
  (l.set row_ndx value).eraseIdx last_row_ndx

/-- One entry of `SubtableColumnBase::SubtableMap`: a cached sub-table
accessor (`m_table`, modelled by an identifier) together with the row
it is cached at (`m_subtable_ndx`). -/
structure SubtableMapEntry where
  m_subtable_ndx : Nat
  m_table : Nat
deriving DecidableEq, Repr, Inhabited

/-- Modelled from the spec: `SubtableMap::adj_move_over` (the `adj_*`
row-move-over adjustment of §4.6; its body is not in the source set).
Per the spec, after `move_last_over(row, last)` "any sub-table
accessor cached at `last` has been re-indexed to `row`": every entry
cached at `from_row_ndx` has its row set to `to_row_ndx`. -/
def SubtableMap_adj_move_over (entries : List SubtableMapEntry)
    (from_row_ndx to_row_ndx : Nat) : List SubtableMapEntry :=
  entries.map (fun e =>
    if e.m_subtable_ndx = from_row_ndx then { e with m_subtable_ndx := to_row_ndx } else e)

/-! ## Index path vs. leaf-streamed scan (C7)

The column content is a sequence of leaves; the scan functions below
are the non-index branches of `StringColumn::find_first`,
`StringColumn::find_all` and `StringColumn::count`
(column_string.cpp:700-929) for the full-column range `begin = 0`,
`end = npos`, walking the leaves in order and offsetting the
leaf-local answers. -/

/-- Matches inside one leaf, as row indices
(`ArrayString::find_all` / `find_first` leaf behaviour). -/
def leaf_matches (leaf : List String) (value : String) : List Nat :=
  (List.range leaf.length).filter (fun r => leaf.getD r "" = value)

/-- Leaf-streamed `find_first` over the leaves of the tree
(column_string.cpp:768-848, non-index branch with `begin = 0`,
`end = npos`). -/
def tree_find_first_scan : List (List String) → String → Option Nat
  | [], _ => none
  | leaf :: rest, value =>
    match leaf.findIdx? (fun x => x = value) with
    | some ndx => some ndx
    | none => (tree_find_first_scan rest value).map (fun n => n + leaf.length)

/-- Leaf-streamed `find_all` (column_string.cpp:851-929, non-index
branch with `begin = 0`, `end = npos`). -/
def tree_find_all_scan : List (List String) → String → List Nat
  | [], _ => []
  | leaf :: rest, value =>
    leaf_matches leaf value ++ (tree_find_all_scan rest value).map (fun n => n + leaf.length)

/-- Leaf-streamed `count` (column_string.cpp:700-765, non-index
branch). -/
def tree_count_scan : List (List String) → String → Nat
  | [], _ => 0
  | leaf :: rest, value => leaf.countP (fun x => x = value) + tree_count_scan rest value

/-- Modelled from the spec: the row set the search index holds for a
value (index_string.cpp is not in the source set).  Per spec §2 the
index is a map "of column values → row sets; kept coherent by column
mutations", so for a column whose flattened content is `content` the
rows for `value` are exactly the rows currently holding `value`, in
ascending order. -/
def index_rows (content : List String) (value : String) : List Nat :=
  (List.range content.length).filter (fun r => content.getD r "" = value)

/-- Modelled from the spec: `StringIndex::find_first` — the first row
of the index's row set (`not_found`, i.e. `none`, when empty). -/
def index_find_first (content : List String) (value : String) : Option Nat :=
  (index_rows content value).head?

/-- Modelled from the spec: `StringIndex::find_all` — the full row
set. -/
def index_find_all (content : List String) (value : String) : List Nat :=
  index_rows content value

/-- Modelled from the spec: `StringIndex::count` — the size of the row
set. -/
def index_count (content : List String) (value : String) : Nat :=
  (index_rows content value).length

/-! ## SubtableMap::remove (C9) -/

/-- `SubtableColumnBase::SubtableMap::remove(Table*)`
(column_table.cpp:211-225): scan for the entry whose accessor is
`subtable`; if none is found return `false` without touching the map;
otherwise overwrite the found slot with the last entry, pop the last
entry, and report whether the map became empty. -/
def SubtableMap_remove (entries : List SubtableMapEntry) (subtable : Nat) :
    List SubtableMapEntry × Bool :=
  match entries.findIdx? (fun e => e.m_table = subtable) with
  | none => (entries, false)
  | some i =>
    let entries2 :=
      (entries.set i (entries.getD (entries.length - 1) default)).dropLast
    (entries2, entries2.isEmpty)

/-- `SubtableColumnBase::child_accessor_destroyed`
(column_table.cpp:135-154): remove the child from the map; call
`unbind_ptr` on the parent table only when the removal emptied the map
and a parent table is attached.  The second component records whether
`unbind_ptr` is called. -/
def child_accessor_destroyed (entries : List SubtableMapEntry)
    (has_table : Bool) (child : Nat) : List SubtableMapEntry × Bool :=
  let res := SubtableMap_remove entries child
  (res.1, res.2 && has_table)

/-! ## StringEnumColumn clear (C10) -/

/-- State of a `StringEnumColumn`: the enum key list `m_keys`, the
integer tree of key indices, and (when present) the values mirrored by
the search index. -/
structure StringEnumColumnState where
  m_keys : List String
  m_tree : List Nat
  m_search_index : Option (List String)
deriving DecidableEq, Repr

/-- `StringEnumColumn::get_key_ndx_or_add`
(column_string_enum.cpp:284-294): the key index of `value`, appending
a new key if absent.  Returns the key index and the updated key
list. -/
def get_key_ndx_or_add (keys : List String) (value : String) : Nat × List String :=
  match keys.findIdx? (fun k => k = value) with
  | some res => (res, keys)
  | none => (keys.length, keys ++ [value])

/-- `StringEnumColumn::do_clear` (column_string_enum.cpp:203-210):
"Note that clearing a StringEnum does not remove keys" — the integer
tree is emptied (`clear_without_updating_index`), the search index is
cleared when present, and `m_keys` is untouched. -/
def StringEnumColumn_do_clear (s : StringEnumColumnState) : StringEnumColumnState :=
  { s with
    m_tree := []
    m_search_index := s.m_search_index.map (fun _ => []) }

/-! ## Concrete states used by the witnesses -/

/-- A concrete spec with columns `[Int, Table, Link, Int, BackLink]`
(the shape of scenario S6 in the specification). -/
def spec0 : Spec :=
  { m_types := [ColumnType.int, ColumnType.table, ColumnType.link,
                ColumnType.int, ColumnType.backLink]
    m_names := ["a", "b", "c", "d"]
    m_attr := [0, 0, 0, 0, 0]
    m_subspecs := [8, 3, 5, 7]
    m_enumkeys := [] }

/-- A concrete two-row indexed string column. -/
def sc0 : StringColumnState :=
  { tree := ["a", "b"], index := some ["a", "b"] }

/-- A concrete spec with a single `Link` column whose subspec slot
holds the non-zero, low-bit-clear value `2`. -/
def spec_even_tag : Spec :=
  { m_types := [ColumnType.link]
    m_names := ["l"]
    m_attr := [0]
    m_subspecs := [2]
    m_enumkeys := [] }

/-! # Theorems -/

/-! ## Generic list lemmas used by the invariant proofs -/

theorem countP_insertIdx {α : Type} (p : α → Bool) :
    ∀ (n : Nat) (l : List α) (a : α), n ≤ l.length →
      (l.insertIdx n a).countP p = l.countP p + (if p a then 1 else 0) := by
  intro n
  induction n with
  | zero =>
    intro l a _
    simp [List.countP_cons]
  | succ n ih =>
    intro l a h
    cases l with
    | nil => simp at h
    | cons x xs =>
      simp only [List.insertIdx_succ_cons, List.countP_cons,
        ih xs a (by simpa using h)]
      omega

theorem sum_map_insertIdx {α : Type} (f : α → Nat) :
    ∀ (n : Nat) (l : List α) (a : α), n ≤ l.length →
      ((l.insertIdx n a).map f).sum = (l.map f).sum + f a := by
  intro n
  induction n with
  | zero =>
    intro l a _
    simp; omega
  | succ n ih =>
    intro l a h
    cases l with
    | nil => simp at h
    | cons x xs =>
      simp only [List.insertIdx_succ_cons, List.map_cons, List.sum_cons,
        ih xs a (by simpa using h)]
      omega

theorem countP_eraseIdx {α : Type} [Inhabited α] (p : α → Bool) :
    ∀ (n : Nat) (l : List α), n < l.length →
      (l.eraseIdx n).countP p + (if p (l.getD n default) then 1 else 0) = l.countP p := by
  intro n
  induction n with
  | zero =>
    intro l h
    cases l with
    | nil => simp at h
    | cons x xs => simp [List.countP_cons]
  | succ n ih =>
    intro l h
    cases l with
    | nil => simp at h
    | cons x xs =>
      simp only [List.eraseIdx_cons_succ, List.countP_cons, List.getD_cons_succ]
      have := ih xs (by simpa using h)
      omega

theorem sum_map_eraseIdx {α : Type} [Inhabited α] (f : α → Nat) :
    ∀ (n : Nat) (l : List α), n < l.length →
      ((l.eraseIdx n).map f).sum + f (l.getD n default) = (l.map f).sum := by
  intro n
  induction n with
  | zero =>
    intro l h
    cases l with
    | nil => simp at h
    | cons x xs => simp; omega
  | succ n ih =>
    intro l h
    cases l with
    | nil => simp at h
    | cons x xs =>
      simp only [List.eraseIdx_cons_succ, List.map_cons, List.sum_cons,
        List.getD_cons_succ]
      have := ih xs (by simpa using h)
      omega

theorem take_insertIdx_self {α : Type} :
    ∀ (n : Nat) (l : List α) (a : α), n ≤ l.length →
      (l.insertIdx n a).take n = l.take n := by
  intro n
  induction n with
  | zero => intro l a _; simp
  | succ n ih =>
    intro l a h
    cases l with
    | nil => simp at h
    | cons x xs =>
      simp only [List.insertIdx_succ_cons, List.take_succ_cons]
      rw [ih xs a (by simpa using h)]

/-! ## Sums of subspec entry counts -/

theorem sum_subspec_entries_append (a b : List ColumnType) :
    sum_subspec_entries (a ++ b) = sum_subspec_entries a + sum_subspec_entries b := by
  simp [sum_subspec_entries]

theorem sum_subspec_entries_take_le (l : List ColumnType) (n : Nat) :
    sum_subspec_entries (l.take n) ≤ sum_subspec_entries l := by
  conv_rhs => rw [← List.take_append_drop n l]
  rw [sum_subspec_entries_append]
  omega

theorem sum_subspec_entries_take_succ (l : List ColumnType) (n : Nat) (h : n < l.length) :
    sum_subspec_entries (l.take (n + 1)) =
      sum_subspec_entries (l.take n) + get_subspec_entries_for_col_type (l.getD n default) := by
  rw [List.take_succ]
  have hsome : l[n]? = some (l.getD n default) := by
    rw [List.getD_eq_getElem?_getD, List.getElem?_eq_getElem h]
    simp [List.getElem?_eq_getElem h]
  rw [hsome, sum_subspec_entries_append]
  simp [sum_subspec_entries]

theorem get_subspec_ndx_after_succ (s : Spec) (n skip : Nat) :
    get_subspec_ndx_after s (n + 1) skip =
      (if n = skip then get_subspec_ndx_after s n skip
       else get_subspec_ndx_after s n skip
            + get_subspec_entries_for_col_type (s.m_types.getD n default)) := by
  unfold get_subspec_ndx_after
  rw [List.range_succ, List.foldl_append]
  by_cases h : n = skip <;> simp [h]

/-- The loop in `get_subspec_ndx_after` computes the sum of the
per-type entry counts over the first `n` columns, provided the skipped
index lies at or beyond `n`. -/
theorem get_subspec_ndx_after_eq_sum (s : Spec) (n skip : Nat)
    (hskip : n ≤ skip) (hlen : n ≤ s.m_types.length) :
    get_subspec_ndx_after s n skip = sum_subspec_entries (s.m_types.take n) := by
  induction n with
  | zero => simp [get_subspec_ndx_after, sum_subspec_entries]
  | succ n ih =>
    have hn : n < s.m_types.length := Nat.lt_of_succ_le hlen
    have hns : ¬ n = skip := by omega
    rw [get_subspec_ndx_after_succ, if_neg hns,
        ih (by omega) (Nat.le_of_lt hn),
        sum_subspec_entries_take_succ s.m_types n hn]

/-- `get_subspec_ndx` as a sum over the columns before `column_ndx`. -/
theorem get_subspec_ndx_eq_sum (s : Spec) (column_ndx : Nat)
    (hlen : column_ndx ≤ s.m_types.length) :
    get_subspec_ndx s column_ndx = sum_subspec_entries (s.m_types.take column_ndx) :=
  get_subspec_ndx_after_eq_sum s column_ndx column_ndx (Nat.le_refl _) hlen

/-- The source's per-type entry count agrees with the specification's
wording. -/
theorem get_subspec_entries_eq_spec :
    get_subspec_entries_for_col_type = entries_per_type_spec := by
  funext t
  cases t <;> rfl

/-- `get_subspec_ndx` does not depend on the subspec array itself. -/
theorem get_subspec_ndx_congr (s s2 : Spec) (h : s.m_types = s2.m_types) (n : Nat) :
    get_subspec_ndx s n = get_subspec_ndx s2 n := by
  unfold get_subspec_ndx get_subspec_ndx_after
  rw [h]

/-! ## C3 -/

/-- C3: for every `Spec` and every column index `i` for which
`get_subspec_ndx(i)` is defined (`i` is the column count, or column
`i` has type `Table`, `Link`, `LinkList` or `BackLink`),
`get_subspec_ndx(i)` equals the sum over columns `j < i` of the
per-type entry count, with `Table`/`Link`/`LinkList` contributing 1
entry, `BackLink` 2, and all other types 0
(`entries_per_type_spec`). -/
theorem get_subspec_ndx_is_entry_sum (s : Spec) (i : Nat)
    (hlen : i ≤ s.m_types.length)
    (_hdef : i = s.m_types.length
        ∨ s.m_types.getD i default = ColumnType.table
        ∨ s.m_types.getD i default = ColumnType.link
        ∨ s.m_types.getD i default = ColumnType.linkList
        ∨ s.m_types.getD i default = ColumnType.backLink) :
    get_subspec_ndx s i = ((s.m_types.take i).map entries_per_type_spec).sum := by
  rw [get_subspec_ndx_eq_sum s i hlen]
  unfold sum_subspec_entries
  rw [get_subspec_entries_eq_spec]

/-- Witness for C3 on the concrete spec `[Int, Table, Link, Int,
BackLink]` at the column count `i = 4` (the `BackLink` column): the
subspec index is the entry sum `0 + 1 + 1 + 0 = 2`. -/
theorem get_subspec_ndx_is_entry_sum_witness :
    (4 ≤ spec0.m_types.length
      ∧ (4 = spec0.m_types.length
          ∨ spec0.m_types.getD 4 default = ColumnType.table
          ∨ spec0.m_types.getD 4 default = ColumnType.link
          ∨ spec0.m_types.getD 4 default = ColumnType.linkList
          ∨ spec0.m_types.getD 4 default = ColumnType.backLink))
    ∧ get_subspec_ndx spec0 4 = ((spec0.m_types.take 4).map entries_per_type_spec).sum :=
  ⟨⟨by decide, by decide⟩,
   get_subspec_ndx_is_entry_sum spec0 4 (by decide) (by decide)⟩

/-! ## C4 helper lemmas -/

theorem entries_table : get_subspec_entries_for_col_type ColumnType.table = 1 := rfl

theorem ite_decide_backLink (t : ColumnType) :
    (if (fun x => decide (x = ColumnType.backLink)) t = true then (1 : Nat) else 0)
      = (if t = ColumnType.backLink then 1 else 0) := by
  by_cases h : t = ColumnType.backLink <;> simp [h]

theorem entries_backLink : get_subspec_entries_for_col_type ColumnType.backLink = 2 := rfl

theorem entries_eq_one_of_link (t : ColumnType) (h : is_link_type t) :
    get_subspec_entries_for_col_type t = 1 := by
  unfold is_link_type at h
  simp only [decide_eq_true_eq] at h
  unfold get_subspec_entries_for_col_type
  rw [if_pos (by tauto)]

theorem entries_eq_zero_of_not_subspec (t : ColumnType) (h1 : t ≠ ColumnType.table)
    (h2 : ¬ is_link_type t) (h3 : t ≠ ColumnType.backLink) :
    get_subspec_entries_for_col_type t = 0 := by
  unfold is_link_type at h2
  simp only [decide_eq_true_eq] at h2
  unfold get_subspec_entries_for_col_type
  rw [if_neg (by tauto), if_neg h3]

/-- The subspec position used by `insert_column` (computed after the
types array has been updated) is the entry sum of the first
`column_ndx` original columns. -/
theorem get_subspec_ndx_insert (s : Spec) (ndx : Nat) (type : ColumnType)
    (h : ndx ≤ s.m_types.length) (s2 : Spec)
    (hty : s2.m_types = s.m_types.insertIdx ndx type) :
    get_subspec_ndx s2 ndx = sum_subspec_entries (s.m_types.take ndx) := by
  have hlen2 : ndx ≤ s2.m_types.length := by
    rw [hty, List.length_insertIdx ndx s.m_types h]
    omega
  rw [get_subspec_ndx_eq_sum s2 ndx hlen2, hty, take_insertIdx_self ndx s.m_types type h]

theorem insert_column_m_types (s : Spec) (ndx : Nat) (type : ColumnType)
    (name : String) (attr : Nat) (ref : Int) :
    (insert_column s ndx type name attr ref).m_types = s.m_types.insertIdx ndx type := by
  simp only [insert_column]
  split_ifs <;> rfl

theorem insert_column_m_names (s : Spec) (ndx : Nat) (type : ColumnType)
    (name : String) (attr : Nat) (ref : Int) :
    (insert_column s ndx type name attr ref).m_names
      = if type ≠ ColumnType.backLink then s.m_names.insertIdx ndx name else s.m_names := by
  simp only [insert_column]
  split_ifs <;> rfl

theorem insert_column_m_attr (s : Spec) (ndx : Nat) (type : ColumnType)
    (name : String) (attr : Nat) (ref : Int) :
    (insert_column s ndx type name attr ref).m_attr = s.m_attr.insertIdx ndx attr := by
  simp only [insert_column]
  split_ifs <;> rfl

theorem insert_column_m_subspecs_length (s : Spec) (ndx : Nat) (type : ColumnType)
    (name : String) (attr : Nat) (ref : Int)
    (hsub : spec_subspec_invariant s) (hlen : ndx ≤ s.m_types.length) :
    (insert_column s ndx type name attr ref).m_subspecs.length
      = s.m_subspecs.length + get_subspec_entries_for_col_type type := by
  have hbound : sum_subspec_entries (s.m_types.take ndx) ≤ s.m_subspecs.length := by
    rw [hsub]
    exact sum_subspec_entries_take_le _ _
  cases type <;>
    simp [insert_column, is_link_type, get_subspec_entries_for_col_type] <;>
    first
    | rfl
    | (rw [get_subspec_ndx_insert s ndx _ hlen _ rfl, List.length_insertIdx _ _ hbound])
    | (rw [get_subspec_ndx_insert s ndx _ hlen _ rfl,
        List.length_insertIdx _ _ (by rw [List.length_insertIdx _ _ hbound]; omega),
        List.length_insertIdx _ _ hbound])

theorem erase_column_m_types (s : Spec) (ndx : Nat) :
    (erase_column s ndx).m_types = s.m_types.eraseIdx ndx := by
  simp only [erase_column]
  split_ifs <;> rfl

theorem erase_column_m_names (s : Spec) (ndx : Nat) :
    (erase_column s ndx).m_names
      = if s.m_types.getD ndx default ≠ ColumnType.backLink then s.m_names.eraseIdx ndx
        else s.m_names := by
  simp only [erase_column]
  split_ifs <;> rfl

theorem erase_column_m_attr (s : Spec) (ndx : Nat) :
    (erase_column s ndx).m_attr = s.m_attr.eraseIdx ndx := by
  simp only [erase_column]
  split_ifs <;> rfl

theorem erase_column_m_subspecs_length (s : Spec) (ndx : Nat)
    (hsub : spec_subspec_invariant s) (hlt : ndx < s.m_types.length) :
    (erase_column s ndx).m_subspecs.length
      + get_subspec_entries_for_col_type (s.m_types.getD ndx default)
      = s.m_subspecs.length := by
  have hSN : get_subspec_ndx s ndx = sum_subspec_entries (s.m_types.take ndx) :=
    get_subspec_ndx_eq_sum s ndx (Nat.le_of_lt hlt)
  have hsucc := sum_subspec_entries_take_succ s.m_types ndx hlt
  have htot : sum_subspec_entries (s.m_types.take (ndx + 1)) ≤ s.m_subspecs.length := by
    rw [hsub]
    exact sum_subspec_entries_take_le _ _
  have hbound : get_subspec_ndx s ndx
      + get_subspec_entries_for_col_type (s.m_types.getD ndx default)
      ≤ s.m_subspecs.length := by
    rw [hSN]
    omega
  simp only [erase_column]
  cases hgd : s.m_types.getD ndx default <;>
    rw [hgd] at hbound <;>
    (try simp [get_subspec_entries_for_col_type] at hbound) <;>
    simp [is_link_type, get_subspec_entries_for_col_type] <;>
    first
    | rfl
    | (have h1 := List.length_eraseIdx_add_one
        (l := s.m_subspecs) (i := get_subspec_ndx s ndx) (by omega)
       omega)
    | (have h1 := List.length_eraseIdx_add_one
        (l := s.m_subspecs) (i := get_subspec_ndx s ndx) (by omega)
       have h2 := List.length_eraseIdx_add_one
        (l := s.m_subspecs.eraseIdx (get_subspec_ndx s ndx))
        (i := get_subspec_ndx s ndx) (by omega)
       omega)

/-! ## C4 -/

/-- C4: for every `Spec` satisfying the structural invariants
(`names.size + #backlink = types.size = attrs.size` and
`subspecs.size = Σ entries_per_type(types[i])`), both
`insert_column(i, type, name, attr)` for valid `i ≤ column count`
and `erase_column(i)` for valid `i < column count` preserve both
invariants, for every column type (including `Table`, `Link`,
`LinkList`, `BackLink` and `StringEnum`).  Validity also includes the
preconditions asserted by the code: the names array is indexed at `i`
for non-backlink columns, and `erase_column` asserts
`(column_ndx >= m_names.size) == (type == BackLink)`
(spec.cpp:322). -/
theorem spec_mutation_preserves_invariants :
    (∀ (s : Spec) (ndx : Nat) (type : ColumnType) (name : String) (attr : Nat) (ref : Int),
      spec_size_invariant s → spec_subspec_invariant s →
      ndx ≤ s.m_types.length →
      (type ≠ ColumnType.backLink → ndx ≤ s.m_names.length) →
      spec_size_invariant (insert_column s ndx type name attr ref)
      ∧ spec_subspec_invariant (insert_column s ndx type name attr ref))
    ∧ (∀ (s : Spec) (ndx : Nat),
      spec_size_invariant s → spec_subspec_invariant s →
      ndx < s.m_types.length →
      ((s.m_names.length ≤ ndx) ↔ s.m_types.getD ndx default = ColumnType.backLink) →
      spec_size_invariant (erase_column s ndx)
      ∧ spec_subspec_invariant (erase_column s ndx)) := by
  constructor
  · intro s ndx type name attr ref hsz hsub hlen hnm
    obtain ⟨hsz1, hsz2⟩ := hsz
    have hcnt := countP_insertIdx (fun t => decide (t = ColumnType.backLink))
      ndx s.m_types type hlen
    refine ⟨⟨?_, ?_⟩, ?_⟩
    · rw [insert_column_m_names, insert_column_m_types]
      by_cases hb : type = ColumnType.backLink
      · subst hb
        rw [if_neg (by simp)]
        rw [List.length_insertIdx _ _ hlen]
        simp at hcnt
        omega
      · rw [if_pos hb]
        rw [List.length_insertIdx _ _ hlen,
          List.length_insertIdx _ _ (hnm hb)]
        simp [hb] at hcnt
        omega
    · rw [insert_column_m_attr, insert_column_m_types]
      rw [List.length_insertIdx _ _ hlen,
        List.length_insertIdx _ _ (by omega : ndx ≤ s.m_attr.length)]
      omega
    · unfold spec_subspec_invariant
      rw [insert_column_m_subspecs_length s ndx type name attr ref hsub hlen,
        insert_column_m_types]
      unfold sum_subspec_entries
      rw [sum_map_insertIdx _ ndx s.m_types type hlen]
      unfold spec_subspec_invariant at hsub
      unfold sum_subspec_entries at hsub
      omega
  · intro s ndx hsz hsub hlt hiff
    obtain ⟨hsz1, hsz2⟩ := hsz
    have hcnt := countP_eraseIdx (fun t => decide (t = ColumnType.backLink))
      ndx s.m_types hlt
    have hty := List.length_eraseIdx_add_one (l := s.m_types) (i := ndx) hlt
    refine ⟨⟨?_, ?_⟩, ?_⟩
    · rw [erase_column_m_names, erase_column_m_types]
      rw [ite_decide_backLink] at hcnt
      by_cases hb : s.m_types.getD ndx default = ColumnType.backLink
      · rw [if_neg (by simp only [ne_eq, not_not]; exact hb)]
        rw [if_pos hb] at hcnt
        omega
      · rw [if_pos hb]
        have hnm : ndx < s.m_names.length := by
          rcases Nat.lt_or_ge ndx s.m_names.length with h | h
          · exact h
          · exact absurd (hiff.mp h) hb
        have hna := List.length_eraseIdx_add_one (l := s.m_names) (i := ndx) hnm
        rw [if_neg hb] at hcnt
        omega
    · rw [erase_column_m_attr, erase_column_m_types]
      have hat := List.length_eraseIdx_add_one (l := s.m_attr) (i := ndx)
        (by omega)
      omega
    · unfold spec_subspec_invariant
      rw [erase_column_m_types]
      have hlen2 := erase_column_m_subspecs_length s ndx hsub hlt
      have hsum := sum_map_eraseIdx get_subspec_entries_for_col_type ndx s.m_types hlt
      unfold spec_subspec_invariant at hsub
      unfold sum_subspec_entries at hsub ⊢
      omega

/-- Witness for C4: on the concrete spec `[Int, Table, Link, Int,
BackLink]` (which satisfies both invariants), appending a `BackLink`
column at index 5 and erasing the `Table` column at index 1 both
preserve the invariants. -/
theorem spec_mutation_preserves_invariants_witness :
    (spec_size_invariant (insert_column spec0 5 ColumnType.backLink "" 0 0)
      ∧ spec_subspec_invariant (insert_column spec0 5 ColumnType.backLink "" 0 0))
    ∧ (spec_size_invariant (erase_column spec0 1)
      ∧ spec_subspec_invariant (erase_column spec0 1)) :=
  ⟨spec_mutation_preserves_invariants.1 spec0 5 ColumnType.backLink "" 0 0
      (by constructor <;> decide) (by decide) (by decide)
      (fun h => absurd rfl h),
   spec_mutation_preserves_invariants.2 spec0 1
      (by constructor <;> decide) (by decide) (by decide) (by decide)⟩

/-! ## C1 -/

/-- C1 counterexample: for an indexed string column,
`StringColumn::do_clear` (column_string.cpp:658-697) clears the tree
*first* and runs `m_search_index->clear()` *last*, so the index
update does not precede the tree update — refuting the claim that for
`clear`, `idx.clear` runs before `tree.clear`. -/
theorem StringColumn_do_clear_tree_before_index :
    StringColumn_do_clear_events true = [MutEvent.tree_clear, MutEvent.idx_clear]
    ∧ index_updates_first (StringColumn_do_clear_events true) = false := by
  decide

/-- C1 amended: for every indexed column, `set`, `erase` and
`move_last_over` execute the search-index update before the
corresponding tree update; `TColumn::clear` also clears the index
first, but `StringColumn::do_clear` and `StringEnumColumn::do_clear`
clear the tree first and the search index afterwards. -/
theorem index_update_order_amended :
    ∀ has_index row_eq_last adds_key : Bool,
      index_updates_first (StringColumn_set_events has_index) = true
      ∧ index_updates_first (StringColumn_do_erase_events has_index) = true
      ∧ index_updates_first (StringColumn_do_move_last_over_events has_index row_eq_last) = true
      ∧ index_updates_first (StringEnumColumn_set_events has_index adds_key) = true
      ∧ index_updates_first (StringEnumColumn_do_erase_events has_index) = true
      ∧ index_updates_first (StringEnumColumn_do_move_last_over_events has_index row_eq_last) = true
      ∧ index_updates_first (TColumn_set_events has_index) = true
      ∧ index_updates_first (TColumn_erase_events has_index) = true
      ∧ index_updates_first (TColumn_move_last_over_events has_index row_eq_last) = true
      ∧ index_updates_first (TColumn_clear_events has_index) = true
      ∧ index_updates_first (StringColumn_do_clear_events has_index) = !has_index
      ∧ index_updates_first (StringEnumColumn_do_clear_events has_index) = !has_index := by
  intro has_index row_eq_last adds_key
  cases has_index <;> cases row_eq_last <;> cases adds_key <;> decide

/-! ## C5 -/

/-- C5: the leaf encoding selected when storing a value of length `L`
into a string-column leaf of current encoding `current` — by
`upgrade_root_leaf`, by the `SetLeafElem` update handler and by
`leaf_insert` — is the larger (in upgrade order) of the current
encoding and the minimal encoding for `L`, where the minimal encoding
is small iff `L ≤ 15`, medium iff `15 < L ≤ 63` and big iff `L > 63`;
a leaf already at a larger encoding keeps it (the result never ranks
below `current`), and the erase handler never re-encodes. -/
theorem leaf_encoding_selection (current : LeafType) (L : Nat) :
    upgrade_root_leaf current L = leaf_max current (minimal_string_encoding L)
    ∧ set_leaf_elem_encoding current L = leaf_max current (minimal_string_encoding L)
    ∧ leaf_insert_encoding current L = leaf_max current (minimal_string_encoding L)
    ∧ erase_leaf_elem_encoding current = current
    ∧ (minimal_string_encoding L = LeafType.small ↔ L ≤ 15)
    ∧ (minimal_string_encoding L = LeafType.medium ↔ 15 < L ∧ L ≤ 63)
    ∧ (minimal_string_encoding L = LeafType.big ↔ 63 < L)
    ∧ LeafType.rank current ≤ LeafType.rank (upgrade_root_leaf current L) := by
  cases current <;>
    simp only [upgrade_root_leaf, set_leaf_elem_encoding, leaf_insert_encoding,
      erase_leaf_elem_encoding, minimal_string_encoding, leaf_max, LeafType.rank,
      small_string_max_size, medium_string_max_size] <;>
    split_ifs <;> simp_all <;> omega

/-! ## C8 -/

/-- C8 counterexample: on a spec whose link column's subspec slot
holds the non-zero value `2` — whose low bit is *clear* —
`Spec::get_opposite_link_table_ndx` succeeds and returns `2 >> 1 = 1`
instead of failing an assertion: the reader only checks
`REALM_ASSERT(tagged_value != 0)`, not that the low bit is set. -/
theorem get_opposite_link_table_ndx_no_low_bit_check :
    spec_even_tag.m_subspecs.getD (get_subspec_ndx spec_even_tag 0) 0 = 2
    ∧ (2 : Int) % 2 = 0
    ∧ get_opposite_link_table_ndx spec_even_tag 0 = some 1 := by
  decide

/-- C8 amended: after `set_opposite_link_table_ndx(i, t)` — which
stores `(t << 1) | 1` — reading the opposite-table index back via
`get_opposite_link_table_ndx(i)` (which shifts right by one bit)
yields `t`; the reader's assertion checks only that the stored tagged
value is non-zero (it reports failure iff the slot holds `0`). -/
theorem opposite_link_table_ndx_roundtrip (s : Spec) (column_ndx table_ndx : Nat)
    (hlt : get_subspec_ndx s column_ndx < s.m_subspecs.length) :
    get_opposite_link_table_ndx (set_opposite_link_table_ndx s column_ndx table_ndx) column_ndx
        = some table_ndx
    ∧ (get_opposite_link_table_ndx s column_ndx = none
        ↔ s.m_subspecs.getD (get_subspec_ndx s column_ndx) 0 = 0) := by
  constructor
  · have hndx : get_subspec_ndx (set_opposite_link_table_ndx s column_ndx table_ndx) column_ndx
        = get_subspec_ndx s column_ndx :=
      get_subspec_ndx_congr _ s rfl column_ndx
    simp only [get_opposite_link_table_ndx]
    rw [hndx]
    have hget :
        (set_opposite_link_table_ndx s column_ndx table_ndx).m_subspecs.getD
            (get_subspec_ndx s column_ndx) 0
          = Int.ofNat ((table_ndx <<< 1) + 1) := by
      unfold set_opposite_link_table_ndx
      simp only [List.getD_eq_getElem?_getD]
      rw [List.getElem?_set_self (by simpa using hlt)]
      simp
    rw [hget]
    have hne : Int.ofNat ((table_ndx <<< 1) + 1) ≠ 0 := by
      simp [Int.ofNat_eq_coe]
      omega
    rw [if_neg hne]
    have htoNat : (Int.ofNat ((table_ndx <<< 1) + 1)).toNat = (table_ndx <<< 1) + 1 := rfl
    rw [htoNat]
    have : ((table_ndx <<< 1) + 1) >>> 1 = table_ndx := by
      rw [Nat.shiftLeft_eq, Nat.shiftRight_eq_div_pow]
      omega
    rw [this]
  · simp only [get_opposite_link_table_ndx]
    by_cases h : s.m_subspecs.getD (get_subspec_ndx s column_ndx) 0 = 0 <;> simp [h]

/-- Witness for C8 on the concrete spec `[Int, Table, Link, Int,
BackLink]`: setting the opposite table of the `Link` column (index 2)
to 5 stores the tagged value 11 and reads back 5. -/
theorem opposite_link_table_ndx_roundtrip_witness :
    get_subspec_ndx spec0 2 < spec0.m_subspecs.length
    ∧ (get_opposite_link_table_ndx (set_opposite_link_table_ndx spec0 2 5) 2 = some 5
        ∧ (get_opposite_link_table_ndx spec0 2 = none
            ↔ spec0.m_subspecs.getD (get_subspec_ndx spec0 2) 0 = 0)) :=
  ⟨by decide, opposite_link_table_ndx_roundtrip spec0 2 5 (by decide)⟩

/-! ## C2 -/

/-- C2 counterexample: appending the duplicate value `"a"` to the
indexed two-row column `sc0` via `StringColumn::do_insert` raises the
unique-constraint rejection from the search index, yet the tree has
already been mutated by `bptree_insert` (which runs first,
column_string.cpp:1074-1083): the tree grew to `["a", "b", "a"]`,
refuting "the rejection surfaces before any tree mutation has been
performed, and the column (tree) state is unchanged". -/
theorem do_insert_rejection_after_tree_mutation :
    (StringColumn_do_insert sc0 none "a").2 = some LogicErr.unique_constraint
    ∧ (StringColumn_do_insert sc0 none "a").1.tree = ["a", "b", "a"]
    ∧ (StringColumn_do_insert sc0 none "a").1.tree ≠ sc0.tree := by
  decide

/-- C2 amended: a unique-constraint rejection raised from
`StringColumn::set` surfaces before any tree mutation and leaves the
whole column state unchanged (the index update runs first); for
`StringColumn::do_insert` the tree insert runs *before* the index
update, so a rejection there leaves the index unchanged but the tree
already mutated (for an append, the value has been appended). -/
theorem unique_rejection_set_before_tree_insert_after :
    (∀ (s : StringColumnState) (ndx : Nat) (value : String),
      (StringColumn_set s ndx value).2 = some LogicErr.unique_constraint →
        (StringColumn_set s ndx value).1 = s)
    ∧ (∀ (s : StringColumnState) (row_ndx : Option Nat) (value : String),
      (StringColumn_do_insert s row_ndx value).2 = some LogicErr.unique_constraint →
        (StringColumn_do_insert s row_ndx value).1.index = s.index
        ∧ (row_ndx = none →
            (StringColumn_do_insert s row_ndx value).1.tree = s.tree ++ [value])) := by
  constructor
  · intro s ndx value herr
    unfold StringColumn_set at herr ⊢
    cases hidx : s.index with
    | none => simp [hidx] at herr
    | some idx =>
      simp only [hidx] at herr ⊢
      cases hset : index_set_unique idx ndx value with
      | error e => simp [hset]
      | ok idx2 => simp [hset] at herr
  · intro s row_ndx value herr
    unfold StringColumn_do_insert at herr ⊢
    cases hidx : s.index with
    | none => simp [hidx] at herr
    | some idx =>
      simp only [hidx] at herr ⊢
      cases hins : index_insert_unique idx row_ndx value with
      | error e =>
        simp only [hins]
        exact ⟨by simp [hidx], fun hrow => by simp [hrow]⟩
      | ok idx2 => simp [hins] at herr

/-- Witness for C2 (amended) on `sc0`: the rejected
`set(0, "b")` leaves the state unchanged, and the rejected append of
`"a"` leaves the index unchanged with the tree already extended. -/
theorem unique_rejection_witness :
    (StringColumn_set sc0 0 "b").1 = sc0
    ∧ (StringColumn_do_insert sc0 none "a").1.index = sc0.index
    ∧ (StringColumn_do_insert sc0 none "a").1.tree = sc0.tree ++ ["a"] := by
  refine ⟨unique_rejection_set_before_tree_insert_after.1 sc0 0 "b" (by decide), ?_, ?_⟩
  · exact (unique_rejection_set_before_tree_insert_after.2 sc0 none "a" (by decide)).1
  · exact (unique_rejection_set_before_tree_insert_after.2 sc0 none "a" (by decide)).2 rfl

/-! ## C6 -/

/-- C6: for a column of size `last_row_ndx + 1` and any
`row_ndx ≤ last_row_ndx`, after
`move_last_over(row_ndx, last_row_ndx)` the column's size is
`last_row_ndx` (decreased by exactly 1) and `get(row_ndx)` returns
the value stored at `last_row_ndx` before the call (`get(row_ndx)`
exists in the shrunken column when `row_ndx < last_row_ndx`; for
`row_ndx = last_row_ndx` the row is simply dropped); and in the
sub-table accessor map every live accessor cached at `last_row_ndx`
is re-indexed to `row_ndx`. -/
theorem move_last_over_spec (l : List String) (row_ndx last_row_ndx : Nat)
    (_hrow : row_ndx ≤ last_row_ndx) (hlast : last_row_ndx + 1 = l.length) :
    (do_move_last_over l row_ndx last_row_ndx).length = last_row_ndx
    ∧ (row_ndx < last_row_ndx →
        (do_move_last_over l row_ndx last_row_ndx).getD row_ndx ""
          = l.getD last_row_ndx "")
    ∧ (∀ (entries : List SubtableMapEntry) (e : SubtableMapEntry),
        e ∈ entries → e.m_subtable_ndx = last_row_ndx →
          { e with m_subtable_ndx := row_ndx }
            ∈ SubtableMap_adj_move_over entries last_row_ndx row_ndx) := by
  have hsetlen : (l.set row_ndx (l.getD last_row_ndx "")).length = last_row_ndx + 1 := by
    simp [← hlast]
  refine ⟨?_, ?_, ?_⟩
  · simp only [do_move_last_over]
    have := List.length_eraseIdx_add_one
      (l := l.set row_ndx (l.getD last_row_ndx "")) (i := last_row_ndx)
      (by omega)
    omega
  · intro hlt
    simp only [do_move_last_over]
    rw [List.eraseIdx_eq_take_drop_succ]
    have hdrop : (l.set row_ndx (l.getD last_row_ndx "")).drop (last_row_ndx + 1) = [] :=
      List.drop_eq_nil_of_le (by omega)
    rw [hdrop, List.append_nil]
    rw [List.getD_eq_getElem?_getD, List.getElem?_take_of_lt hlt]
    rw [List.getElem?_set_self (by omega)]
    simp
  · intro entries e he hndx
    have hfe : ({ e with m_subtable_ndx := row_ndx } : SubtableMapEntry)
        = (fun e : SubtableMapEntry =>
            if e.m_subtable_ndx = last_row_ndx then { e with m_subtable_ndx := row_ndx }
            else e) e := by
      simp [hndx]
    rw [hfe]
    exact List.mem_map_of_mem _ he

/-- Witness for C6: on the column `["x", "y", "z"]`,
`move_last_over(0, 2)` yields size 2, `get(0) = "z"`, and a sub-table
accessor cached at row 2 is re-indexed to row 0. -/
theorem move_last_over_spec_witness :
    ((0 : Nat) ≤ 2 ∧ (2 : Nat) + 1 = (["x", "y", "z"] : List String).length)
    ∧ ((do_move_last_over ["x", "y", "z"] 0 2).length = 2
        ∧ ((0 : Nat) < 2 →
            (do_move_last_over ["x", "y", "z"] 0 2).getD 0 ""
              = (["x", "y", "z"] : List String).getD 2 "")
        ∧ (∀ (entries : List SubtableMapEntry) (e : SubtableMapEntry),
            e ∈ entries → e.m_subtable_ndx = 2 →
              { e with m_subtable_ndx := 0 } ∈ SubtableMap_adj_move_over entries 2 0)) :=
  ⟨⟨by decide, by decide⟩,
   move_last_over_spec ["x", "y", "z"] 0 2 (by decide) (by decide)⟩

/-! ## C7 -/

theorem leaf_matches_eq_index_rows : leaf_matches = index_rows := rfl

theorem index_rows_nil (v : String) : index_rows [] v = [] := rfl

theorem map_succ_add_one (l : List Nat) : l.map Nat.succ = l.map (fun n => n + 1) := rfl

theorem index_rows_cons (x : String) (xs : List String) (v : String) :
    index_rows (x :: xs) v
      = (if x = v then [0] else []) ++ (index_rows xs v).map (fun n => n + 1) := by
  unfold index_rows
  rw [List.length_cons, List.range_succ_eq_map, List.filter_cons, List.filter_map]
  have hpred : List.filter
        ((fun r => decide ((x :: xs).getD r "" = v)) ∘ Nat.succ) (List.range xs.length)
      = List.filter (fun r => decide (xs.getD r "" = v)) (List.range xs.length) := by
    apply List.filter_congr
    intro a _
    simp [Function.comp, Nat.succ_eq_add_one, List.getD_cons_succ]
  rw [hpred]
  by_cases h : x = v <;> simp [h, List.getD_cons_zero, map_succ_add_one]

theorem index_rows_append (a b : List String) (v : String) :
    index_rows (a ++ b) v
      = index_rows a v ++ (index_rows b v).map (fun n => n + a.length) := by
  induction a with
  | nil => simp [index_rows_nil]
  | cons x xs ih =>
    have hm : (List.map (fun n => n + xs.length) (index_rows b v)).map (fun n => n + 1)
        = (index_rows b v).map (fun n => n + (x :: xs).length) := by
      rw [List.map_map]
      apply List.map_congr_left
      intro n _
      simp only [Function.comp_apply, List.length_cons]
      omega
    rw [List.cons_append, index_rows_cons, ih, List.map_append, hm,
      index_rows_cons x xs v, List.append_assoc]

theorem findIdx_eq_head_index_rows (l : List String) (v : String) :
    l.findIdx? (fun x => x = v) = (index_rows l v).head? := by
  induction l with
  | nil => simp [index_rows_nil]
  | cons x xs ih =>
    rw [index_rows_cons, List.findIdx?_cons]
    by_cases h : x = v
    · simp [h]
    · simp [h, List.head?_map, ih]

theorem countP_eq_length_index_rows (l : List String) (v : String) :
    l.countP (fun x => x = v) = (index_rows l v).length := by
  induction l with
  | nil => simp [index_rows_nil]
  | cons x xs ih =>
    rw [index_rows_cons, List.countP_cons, List.length_append, List.length_map, ih]
    by_cases h : x = v
    · simp [h]
      omega
    · simp [h]

/-- C7: for a string column whose rows are the flattened leaves, the
answer obtained through the index path — the coherent value→row-set
map queried when the range is the full column (`begin = 0`,
`end = npos`) — equals the answer obtained through the leaf-streamed
scan path, for `find_first`, `find_all` and `count`. -/
theorem index_path_eq_scan_path (leaves : List (List String)) (value : String) :
    index_find_first leaves.flatten value = tree_find_first_scan leaves value
    ∧ index_find_all leaves.flatten value = tree_find_all_scan leaves value
    ∧ index_count leaves.flatten value = tree_count_scan leaves value := by
  refine ⟨?_, ?_, ?_⟩
  · induction leaves with
    | nil => simp [index_find_first, tree_find_first_scan, index_rows_nil]
    | cons leaf rest ih =>
      rw [List.flatten_cons]
      unfold index_find_first at ih ⊢
      unfold tree_find_first_scan
      rw [index_rows_append, findIdx_eq_head_index_rows]
      cases hleaf : index_rows leaf value with
      | nil => simp [hleaf, List.head?_map, ih]
      | cons r rs => simp [hleaf]
  · induction leaves with
    | nil => simp [index_find_all, tree_find_all_scan, index_rows_nil]
    | cons leaf rest ih =>
      rw [List.flatten_cons]
      unfold index_find_all at ih ⊢
      unfold tree_find_all_scan
      rw [index_rows_append, ih, leaf_matches_eq_index_rows]
  · induction leaves with
    | nil => simp [index_count, tree_count_scan, index_rows_nil]
    | cons leaf rest ih =>
      rw [List.flatten_cons]
      unfold index_count at ih ⊢
      unfold tree_count_scan
      rw [index_rows_append, List.length_append, List.length_map, ih,
        countP_eq_length_index_rows]

/-! ## C9 -/

/-- C9: for every map state and every table pointer not present in
the map, `SubtableMap::remove` returns without error and without
modifying the map, and its return value does not report "last entry
removed" — so `child_accessor_destroyed` does not unbind the parent
table (whether or not one is attached); removal of a not-found
pointer is treated as success. -/
theorem SubtableMap_remove_not_found (entries : List SubtableMapEntry) (subtable : Nat)
    (habsent : ∀ e ∈ entries, e.m_table ≠ subtable) :
    SubtableMap_remove entries subtable = (entries, false)
    ∧ child_accessor_destroyed entries true subtable = (entries, false)
    ∧ child_accessor_destroyed entries false subtable = (entries, false) := by
  have hfind : entries.findIdx? (fun e => e.m_table = subtable) = none := by
    rw [List.findIdx?_eq_none_iff]
    intro e he
    simpa using habsent e he
  have hrem : SubtableMap_remove entries subtable = (entries, false) := by
    unfold SubtableMap_remove
    rw [hfind]
  exact ⟨hrem, by simp [child_accessor_destroyed, hrem], by simp [child_accessor_destroyed, hrem]⟩

/-- Witness for C9: removing the absent accessor 99 from a two-entry
map leaves the map unchanged and reports `false`. -/
theorem SubtableMap_remove_not_found_witness :
    SubtableMap_remove [⟨0, 10⟩, ⟨2, 11⟩] 99 = ([⟨0, 10⟩, ⟨2, 11⟩], false)
    ∧ child_accessor_destroyed [⟨0, 10⟩, ⟨2, 11⟩] true 99 = ([⟨0, 10⟩, ⟨2, 11⟩], false)
    ∧ child_accessor_destroyed [⟨0, 10⟩, ⟨2, 11⟩] false 99 = ([⟨0, 10⟩, ⟨2, 11⟩], false) :=
  SubtableMap_remove_not_found [⟨0, 10⟩, ⟨2, 11⟩] 99 (by decide)

/-! ## C10 -/

/-- C10: `StringEnumColumn::do_clear` removes all rows from the
integer value tree and clears the search index when present, but
leaves the enum key list `m_keys` unchanged: every key is still
present at the same key index afterwards (in particular
`get_key_ndx_or_add` answers exactly as before the clear). -/
theorem StringEnumColumn_do_clear_keeps_keys (s : StringEnumColumnState) :
    (StringEnumColumn_do_clear s).m_tree = []
    ∧ (StringEnumColumn_do_clear s).m_search_index = s.m_search_index.map (fun _ => [])
    ∧ (StringEnumColumn_do_clear s).m_keys = s.m_keys
    ∧ (∀ i : Nat, (StringEnumColumn_do_clear s).m_keys.getD i "" = s.m_keys.getD i "")
    ∧ (∀ value : String,
        (StringEnumColumn_do_clear s).m_keys.findIdx? (fun k => k = value)
          = s.m_keys.findIdx? (fun k => k = value))
    ∧ (∀ value : String,
        get_key_ndx_or_add (StringEnumColumn_do_clear s).m_keys value
          = get_key_ndx_or_add s.m_keys value) :=
  ⟨rfl, rfl, rfl, fun _ => rfl, fun _ => rfl, fun _ => rfl⟩

end RealmCore
